import Mathlib

/-!
Verification of the dead-links checker worker pipeline.

The definitions below are shallow embeddings of the worker's source
(`worker/src/job.ts`, `worker/src/lib/crawl.ts`, `worker/src/lib/options.ts`,
`worker/src/lib/sitemap.ts`).  Network and browser effects are made explicit:
each effectful primitive (`fetch` for HEAD/GET probes, `discoverFromSitemap`,
`discoverFromPages`, the WHATWG `new URL` parser) becomes a field of an
environment record, and the pure dataflow of the TypeScript code is translated
function by function.  HTTP status codes are `Nat`; a JavaScript exception is
an `Except.error` carrying its string representation; `null`/absent values are
`Option`.
-/

set_option autoImplicit false
set_option maxRecDepth 100000

namespace DeadLinks

/-- Link classification outcomes (`type LinkStatus` in job.ts). -/
inductive LinkStatus where
  | alive
  | dead
  | error
deriving DecidableEq, Repr

/-- Discovery-method tag (`type DiscoveryMethod` in job.ts). -/
inductive DiscoveryMethod where
  | sitemap
  | scrape
deriving DecidableEq, Repr

/-- Record for `interface LinkResult` from job.ts: `statusCode` and `error` are optional
fields, modelled as `Option`. -/
structure LinkResult where
  url : String
  status : LinkStatus
  statusCode : Option Nat
  error : Option String
deriving DecidableEq, Repr

/-- Record for `interface JobResult` from job.ts. -/
structure JobResult where
  title : String
  discoveryMethod : DiscoveryMethod
  pagesCrawled : Nat
  pagesCrawledUrls : List String
  linksChecked : Nat
  alive : Nat
  dead : Nat
  errors : Nat
  links : List LinkResult
deriving DecidableEq, Repr

/-- Function `isAlive` from job.ts (identical copy in lib/crawl.ts / lib/http.ts):
2xx/3xx are alive, and 401/403 are treated as alive (auth-restricted but
existing); everything else is not alive. -/
def isAlive (statusCode : Nat) : Bool :=
  if 200 ≤ statusCode ∧ statusCode < 400 then true
  else if statusCode = 401 ∨ statusCode = 403 then true
  else false

/-- The classification step of `checkLink`
(`status: isAlive(response.status) ? "alive" : "dead"`). -/
def classify (statusCode : Nat) : LinkStatus :=
  if isAlive statusCode then LinkStatus.alive else LinkStatus.dead

/-- The network interface used by `checkLink`: the HEAD and GET probes of a
URL.  `Except.ok s` is a response with status `s` (redirects already
followed); `Except.error e` is a thrown exception whose string representation
is `e` (timeout, DNS failure, connection refused, TLS error, ...). -/
structure FetchEnv where
  head : String → Except String Nat
  get : String → Except String Nat

/-- Function `checkLink` from job.ts: probe with HEAD; retry once with GET when the
HEAD status is exactly 405; classify the final status with `isAlive`; catch
every exception into a `status: "error"` result carrying the exception text.
The function is total, so a per-link failure never escapes to the caller. -/
def checkLink (env : FetchEnv) (url : String) : LinkResult :=
  match env.head url with
  | Except.error e => { url := url, status := LinkStatus.error, statusCode := none, error := some e }
  | Except.ok s =>
    if s = 405 then
      match env.get url with
      | Except.error e =>
        { url := url, status := LinkStatus.error, statusCode := none, error := some e }
      | Except.ok s2 =>
        { url := url, status := classify s2, statusCode := some s2, error := none }
    else
      { url := url, status := classify s, statusCode := some s, error := none }

/-- Shape of `JobOptions` after normalization (`Required<JobOptions>` in job.ts), as
consumed by the pipeline.  Delay fields only feed `sleep`, which has no
observable effect on the data flow, but they are kept for fidelity. -/
structure ROptions where
  followInternalLinks : Bool
  maxInternalPages : Nat
  maxLinksToCheck : Nat
  linkCheckConcurrency : Nat
  linkBatchDelayMs : Nat
  linkBatchJitterMs : Nat
  navigationDelayMs : Nat
  navigationJitterMs : Nat
deriving DecidableEq, Repr

/-- The batch loop of `checkLinks`: `for (let i = 0; i < links.length; i +=
concurrency)` slices `links.slice(i, i + concurrency)`, checks the batch, and
appends the batch results in order.  `conc` is the already-clamped concurrency
(`Math.max(1, ...)`, so ≥ 1); the structural `fuel` argument is initialized to
`links.length`, which bounds the number of iterations since every iteration
consumes at least one link. -/
def checkLinksFuel (env : FetchEnv) (conc : Nat) : Nat → List String → List LinkResult
  | 0, _ => []
  | _, [] => []
  | Nat.succ fuel, u :: rest =>
    ((u :: rest).take conc).map (checkLink env) ++
      checkLinksFuel env conc fuel ((u :: rest).drop conc)

/-- Function `checkLinks` from job.ts: check `links` in batches of
`Math.max(1, options.linkCheckConcurrency)`, concatenating batch results in
input order.  `jobId` is only used for logging in the source. -/
def checkLinks (env : FetchEnv) (links : List String) (_jobId : String)
    (options : ROptions) : List LinkResult :=
  checkLinksFuel env (max 1 options.linkCheckConcurrency) links.length links

/-- A parsed WHATWG URL, restricted to the components the worker reads.
`protocol` includes the trailing colon (`"https:"`), `host` is host plus
optional port, `rest` is pathname plus search, and `hash` is the fragment
including its leading `#` (empty when absent).  `new URL(s)` itself is the
platform parser and is passed around as an abstract
`parse : String → Option URLm`; `none` models the constructor throwing. -/
structure URLm where
  protocol : String
  host : String
  rest : String
  hash : String
deriving DecidableEq, Repr

/-- Serialization `url.href` after `url.hash = ""`: the serialization without fragment. -/
def URLm.hrefNoHash (u : URLm) : String :=
  u.protocol ++ "//" ++ u.host ++ u.rest

/-- Component `url.origin`: scheme plus host. -/
def URLm.origin (u : URLm) : String :=
  u.protocol ++ "//" ++ u.host

/-- The candidate loop of `selectInternalPagesToCrawl` in lib/crawl.ts.
`seen` and `selected` mirror the `seen` set and `selected` array; the loop
breaks as soon as `selected.length >= maxInternalPages`, skips candidates
that fail to parse, are not http(s), are on another host, or equal the
fragment-stripped root, and pushes the fragment-stripped href of each new
candidate. -/
def selectGo (parse : String → Option URLm) (rootHost rootHref : String)
    (maxInternalPages : Nat) :
    List String → List String → List String → List String
  | [], _seen, selected => selected
  | u :: rest, seen, selected =>
    if maxInternalPages ≤ selected.length then selected
    else
      match parse u with
      | none => selectGo parse rootHost rootHref maxInternalPages rest seen selected
      | some p =>
        if p.protocol ≠ "http:" ∧ p.protocol ≠ "https:" then
          selectGo parse rootHost rootHref maxInternalPages rest seen selected
        else if p.host ≠ rootHost then
          selectGo parse rootHost rootHref maxInternalPages rest seen selected
        else if p.hrefNoHash = rootHref then
          selectGo parse rootHost rootHref maxInternalPages rest seen selected
        else if p.hrefNoHash ∈ seen then
          selectGo parse rootHost rootHref maxInternalPages rest seen selected
        else
          selectGo parse rootHost rootHref maxInternalPages rest
            (p.hrefNoHash :: seen) (selected ++ [p.hrefNoHash])

/-- Function `selectInternalPagesToCrawl` from lib/crawl.ts.  `new URL(rootUrl)` is
outside any try/catch, so an unparsable root propagates (modelled as `none`);
otherwise the candidate loop runs with the root's host and fragment-stripped
href. -/
def selectInternalPagesToCrawl (parse : String → Option URLm) (rootUrl : String)
    (candidates : List String) (maxInternalPages : Nat) : Option (List String) :=
  match parse rootUrl with
  | none => none
  | some root =>
    some (selectGo parse root.host root.hrefNoHash maxInternalPages candidates [] [])

/-- Specification-side single-candidate filter: the per-candidate decision of
`selectInternalPagesToCrawl` as one function, returning the fragment-stripped
href of a kept candidate. -/
def keepCandidate (parse : String → Option URLm) (rootHost rootHref : String)
    (u : String) : Option String :=
  match parse u with
  | none => none
  | some p =>
    if p.protocol ≠ "http:" ∧ p.protocol ≠ "https:" then none
    else if p.host ≠ rootHost then none
    else if p.hrefNoHash = rootHref then none
    else some p.hrefNoHash

/-- First-occurrence deduplication with an explicit set of already-seen keys:
the iteration order of a JavaScript `Set` built by repeated insertion. -/
def dedupFirstAux (seen : List String) : List String → List String
  | [] => []
  | x :: xs =>
    if x ∈ seen then dedupFirstAux seen xs
    else x :: dedupFirstAux (x :: seen) xs

/-- First-occurrence deduplication (insertion order of a JavaScript `Set`). -/
def dedupFirst (l : List String) : List String :=
  dedupFirstAux [] l

/-- Specification-side description of `selectInternalPagesToCrawl` (spec §8):
filter each candidate, deduplicate keeping first occurrences, and truncate to
`maxInternalPages`. -/
def selectedSpec (parse : String → Option URLm) (root : URLm)
    (candidates : List String) (maxInternalPages : Nat) : List String :=
  (dedupFirst (candidates.filterMap
      (keepCandidate parse root.host root.hrefNoHash))).take maxInternalPages

/-- The candidate set built by `discoverFromPages` before calling
`selectInternalPagesToCrawl`: a `Set` into which the root page's internal
links are inserted first and the externally supplied seed pages second. -/
def crawlCandidates (internalLinks extraInternalPages : List String) : List String :=
  dedupFirst (internalLinks ++ extraInternalPages)

/-- Case-insensitive literal match: strip `pat` from the front of `s`,
comparing characters after `Char.toLower` (the `i` regex flag). -/
def dropPrefCI : List Char → List Char → Option (List Char)
  | [], s => some s
  | _ :: _, [] => none
  | p :: ps, c :: cs =>
    if p.toLower = c.toLower then dropPrefCI ps cs else none

/-- Consume leading whitespace (the `\s*` of the sitemap regexes; XML
whitespace is space, tab, CR, LF). -/
def skipWs : List Char → List Char
  | [] => []
  | c :: cs => if c.isWhitespace then skipWs cs else c :: cs

/-- Greedily take characters up to (excluding) the next `<` — the maximal
match of `[^<]+` — returning the capture and the remainder. -/
def takeUntilLt : List Char → List Char × List Char
  | [] => ([], [])
  | c :: cs =>
    if c = '<' then ([], c :: cs)
    else
      let r := takeUntilLt cs
      (c :: r.1, r.2)

/-- Try to match `tag \s* <loc> ([^<]+) </loc>` (case-insensitive) at the
current position; on success return the capture and the input after the
match.  `[^<]+` cannot backtrack past a `<`, so the capture is exactly the
run of non-`<` characters, which must be nonempty and followed by `</loc>`. -/
def matchEntryAt (tag : List Char) (s : List Char) : Option (String × List Char) :=
  match dropPrefCI tag s with
  | none => none
  | some s1 =>
    match dropPrefCI "<loc>".data (skipWs s1) with
    | none => none
    | some s2 =>
      let cap := (takeUntilLt s2).1
      if cap = [] then none
      else
        match dropPrefCI "</loc>".data (takeUntilLt s2).2 with
        | none => none
        | some s3 => some (String.mk cap, s3)

/-- The `matchAll` scan of `/tag\s*<loc>([^<]+)<\/loc>/gi`: try a match at
every position left to right; after a successful match continue right after
it, after a failure advance one character.  Every step consumes at least one
character, so `fuel` initialized to the input length never runs out. -/
def scanEntriesFuel (tag : List Char) : Nat → List Char → List String
  | 0, _ => []
  | _, [] => []
  | Nat.succ fuel, c :: cs =>
    match matchEntryAt tag (c :: cs) with
    | some (cap, rest) => cap :: scanEntriesFuel tag fuel rest
    | none => scanEntriesFuel tag fuel cs

/-- All captures of `/tag\s*<loc>([^<]+)<\/loc>/gi` over the input. -/
def scanEntries (tag : List Char) (s : List Char) : List String :=
  scanEntriesFuel tag s.length s

/-- JavaScript `String.prototype.trim`: remove leading and trailing
whitespace. -/
def jsTrim (s : String) : String :=
  String.mk (((s.data.dropWhile Char.isWhitespace).reverse.dropWhile
    Char.isWhitespace).reverse)

/-- The literal `<sitemap>` head of the sitemap-index regex. -/
def sitemapTag : List Char := "<sitemap>".data

/-- The literal `<url>` head of the urlset regex. -/
def urlTag : List Char := "<url>".data

/-- Return type of `extractSitemapUrlsFromXml` in lib/sitemap.ts. -/
structure SitemapXml where
  childSitemaps : List String
  urls : List String
deriving DecidableEq, Repr

/-- Function `extractSitemapUrlsFromXml` from lib/sitemap.ts: collect every
`<sitemap><loc>` capture (trimmed); if any exist the document is a sitemap
index (`childSitemaps`, no `urls`); otherwise collect every `<url><loc>`
capture (trimmed) as `urls`. -/
def extractSitemapUrlsFromXml (xml : String) : SitemapXml :=
  let childSitemaps := (scanEntries sitemapTag xml.data).map jsTrim
  if childSitemaps.length > 0 then
    { childSitemaps := childSitemaps, urls := [] }
  else
    { childSitemaps := [], urls := (scanEntries urlTag xml.data).map jsTrim }

mutual

/-- Function `parseSitemap` from job.ts, indexed by a recursion-depth budget `fuel`:
fetch the sitemap (a failed fetch yields `[]`), and either recurse into every
child of a sitemap index, concatenating, or return the urlset entries.  The
source has no depth or cycle guard, so the budget is the only thing bounding
the recursion here; `none` means the budget was exhausted before resolution
completed. -/
def parseSitemapFuel (fetchXml : String → Option String) (fuel : Nat)
    (sitemapUrl : String) : Option (List String) :=
  match fuel with
  | 0 => none
  | Nat.succ f =>
    match fetchXml sitemapUrl with
    | none => some []
    | some xml =>
      let parsed := extractSitemapUrlsFromXml xml
      if parsed.childSitemaps.length > 0 then
        parseChildren fetchXml f parsed.childSitemaps
      else
        some parsed.urls
termination_by (fuel, 0)

/-- The `for (const childUrl of childSitemaps)` loop of `parseSitemap`:
resolve each child in order and concatenate; if any child exhausts the
budget, the whole resolution is unfinished. -/
def parseChildren (fetchXml : String → Option String) (fuel : Nat) :
    List String → Option (List String)
  | [] => some []
  | c :: cs =>
    match parseSitemapFuel fetchXml fuel c with
    | none => none
    | some us =>
      match parseChildren fetchXml fuel cs with
      | none => none
      | some rest => some (us ++ rest)
termination_by l => (fuel, l.length + 1)

end

/-- A sitemap URL whose document lists itself as a child sitemap. -/
def selfLoopUrl : String := "https://example.com/sitemap.xml"

/-- The self-referencing sitemap-index document served at `selfLoopUrl`. -/
def selfLoopXml : String :=
  "<sitemapindex><sitemap> <loc>https://example.com/sitemap.xml</loc></sitemap></sitemapindex>"

/-- A fetch environment in which `selfLoopUrl` serves `selfLoopXml` and every
other URL fails to fetch. -/
def selfFetch : String → Option String :=
  fun u => if u = selfLoopUrl then some selfLoopXml else none

/-- The result record of `discoverFromPages` (title of the root page, the
set of discovered absolute links, the pages actually crawled). -/
structure PageData where
  title : String
  links : List String
  pagesCrawledUrls : List String
deriving DecidableEq, Repr

/-- The effect environment of `processJob`.  `parse` is the WHATWG URL
parser; `sitemapPages` is the outcome of `await discoverFromSitemap(baseUrl)`;
`pageData` is the outcome of `await discoverFromPages(job.url, options,
extraInternalPages?)`, a function of the optional seed-page argument (`none`
models the call with the argument omitted); `fetch` drives `checkLink`. -/
structure JobEnv where
  parse : String → Option URLm
  sitemapPages : List String
  pageData : Option (List String) → PageData
  fetch : FetchEnv

/-- The sitemap-seed filter of `processJob`:
`try { return new URL(u).origin === baseUrl } catch { return false }`. -/
def sameOrigin (parse : String → Option URLm) (baseUrl : String) (u : String) : Bool :=
  match parse u with
  | some p => p.origin == baseUrl
  | none => false

/-- The discovery branch of `processJob`: when `discoverFromSitemap` returned
at least one URL, the method is `sitemap` and the crawler receives the
same-origin sitemap URLs capped at `maxInternalPages` as extra seed pages;
otherwise the method is `scrape` and the crawler is invoked with no seed
pages. -/
def jobDiscovery (env : JobEnv) (baseUrl : String) (maxInternalPages : Nat) :
    DiscoveryMethod × Option (List String) :=
  if env.sitemapPages.length > 0 then
    (DiscoveryMethod.sitemap,
      some ((env.sitemapPages.filter (fun u => sameOrigin env.parse baseUrl u)).take
        maxInternalPages))
  else
    (DiscoveryMethod.scrape, none)

/-- The tail of `processJob` after page discovery: cap the discovered links at
`maxLinksToCheck`, run `checkLinks`, tally statuses by filtering, and build
the `JobResult` stored on the completed job. -/
def mkJobResult (fetch : FetchEnv) (options : ROptions) (jobId : String)
    (discoveryMethod : DiscoveryMethod) (pd : PageData) : JobResult :=
  let links :=
    if pd.links.length > options.maxLinksToCheck then
      pd.links.take options.maxLinksToCheck
    else pd.links
  let results := checkLinks fetch links jobId options
  { title := pd.title
    discoveryMethod := discoveryMethod
    pagesCrawled := pd.pagesCrawledUrls.length
    pagesCrawledUrls := pd.pagesCrawledUrls
    linksChecked := results.length
    alive := (results.filter (fun r => r.status == LinkStatus.alive)).length
    dead := (results.filter (fun r => r.status == LinkStatus.dead)).length
    errors := (results.filter (fun r => r.status == LinkStatus.error)).length
    links := results }

/-- The happy path of `processJob` from job.ts: derive the origin of the job
URL (`new URL(job.url).origin`; an unparsable URL throws and the job fails
with no result, modelled as `none`), choose the discovery branch, crawl with
the branch's seed pages, and build the completed job's `JobResult`. -/
def processJob (env : JobEnv) (url : String) (options : ROptions)
    (jobId : String) : Option JobResult :=
  match env.parse url with
  | none => none
  | some rootU =>
    let d := jobDiscovery env rootU.origin options.maxInternalPages
    some (mkJobResult env.fetch options jobId d.1 (env.pageData d.2))

/-- A property slot of a JavaScript object: either the property is absent
(`hasOwnProperty` is false), or it is present with value `undefined`, or it
is present with a proper value.  Object spread copies every *present*
property, including ones whose value is `undefined`. -/
inductive JSField (α : Type) where
  | absent
  | undef
  | val (a : α)
deriving DecidableEq, Repr

/-- A partial `JobOptions` object as accepted by `normalizeOptions`: each of
the eight optional fields may be absent, explicitly `undefined`, or set. -/
structure PartialJobOptions where
  followInternalLinks : JSField Bool := JSField.absent
  maxInternalPages : JSField Nat := JSField.absent
  maxLinksToCheck : JSField Nat := JSField.absent
  linkCheckConcurrency : JSField Nat := JSField.absent
  linkBatchDelayMs : JSField Nat := JSField.absent
  linkBatchJitterMs : JSField Nat := JSField.absent
  navigationDelayMs : JSField Nat := JSField.absent
  navigationJitterMs : JSField Nat := JSField.absent
deriving DecidableEq, Repr

/-- The value of `normalizeOptions`: every property is present (the defaults
object supplies all eight keys), but a property's value may still be
`undefined` (`none`). -/
structure NormalizedJobOptions where
  followInternalLinks : Option Bool
  maxInternalPages : Option Nat
  maxLinksToCheck : Option Nat
  linkCheckConcurrency : Option Nat
  linkBatchDelayMs : Option Nat
  linkBatchJitterMs : Option Nat
  navigationDelayMs : Option Nat
  navigationJitterMs : Option Nat
deriving DecidableEq, Repr

/-- Constant `DEFAULT_OPTIONS` from lib/options.ts: all eight fields defined. -/
def DEFAULT_OPTIONS : NormalizedJobOptions :=
  { followInternalLinks := some true
    maxInternalPages := some 10
    maxLinksToCheck := some 500
    linkCheckConcurrency := some 3
    linkBatchDelayMs := some 600
    linkBatchJitterMs := some 400
    navigationDelayMs := some 800
    navigationJitterMs := some 500 }

/-- One property of `{...DEFAULT_OPTIONS, ...options}`: an absent property
keeps the default; a present property — even one valued `undefined` —
overrides it. -/
def spreadField {α : Type} (dflt : Option α) : JSField α → Option α
  | JSField.absent => dflt
  | JSField.undef => none
  | JSField.val a => some a

/-- Function `normalizeOptions` from lib/options.ts:
`{...DEFAULT_OPTIONS, ...(options ?? {})}`. -/
def normalizeOptions (options : Option PartialJobOptions) : NormalizedJobOptions :=
  let o := options.getD {}
  { followInternalLinks := spreadField DEFAULT_OPTIONS.followInternalLinks o.followInternalLinks
    maxInternalPages := spreadField DEFAULT_OPTIONS.maxInternalPages o.maxInternalPages
    maxLinksToCheck := spreadField DEFAULT_OPTIONS.maxLinksToCheck o.maxLinksToCheck
    linkCheckConcurrency := spreadField DEFAULT_OPTIONS.linkCheckConcurrency o.linkCheckConcurrency
    linkBatchDelayMs := spreadField DEFAULT_OPTIONS.linkBatchDelayMs o.linkBatchDelayMs
    linkBatchJitterMs := spreadField DEFAULT_OPTIONS.linkBatchJitterMs o.linkBatchJitterMs
    navigationDelayMs := spreadField DEFAULT_OPTIONS.navigationDelayMs o.navigationDelayMs
    navigationJitterMs := spreadField DEFAULT_OPTIONS.navigationJitterMs o.navigationJitterMs }

/-- No field of the partial options object is explicitly `undefined`. -/
def noUndef (o : PartialJobOptions) : Prop :=
  o.followInternalLinks ≠ JSField.undef ∧
  o.maxInternalPages ≠ JSField.undef ∧
  o.maxLinksToCheck ≠ JSField.undef ∧
  o.linkCheckConcurrency ≠ JSField.undef ∧
  o.linkBatchDelayMs ≠ JSField.undef ∧
  o.linkBatchJitterMs ≠ JSField.undef ∧
  o.navigationDelayMs ≠ JSField.undef ∧
  o.navigationJitterMs ≠ JSField.undef

instance (o : PartialJobOptions) : Decidable (noUndef o) := by
  unfold noUndef; infer_instance

/-- Every field of the normalized options object is defined. -/
def allDefined (n : NormalizedJobOptions) : Prop :=
  n.followInternalLinks.isSome = true ∧
  n.maxInternalPages.isSome = true ∧
  n.maxLinksToCheck.isSome = true ∧
  n.linkCheckConcurrency.isSome = true ∧
  n.linkBatchDelayMs.isSome = true ∧
  n.linkBatchJitterMs.isSome = true ∧
  n.navigationDelayMs.isSome = true ∧
  n.navigationJitterMs.isSome = true

instance (n : NormalizedJobOptions) : Decidable (allDefined n) := by
  unfold allDefined; infer_instance

/-- Normalized options with the documented default values, used by the
concrete evaluations below. -/
def optsEx : ROptions :=
  { followInternalLinks := true
    maxInternalPages := 10
    maxLinksToCheck := 500
    linkCheckConcurrency := 3
    linkBatchDelayMs := 600
    linkBatchJitterMs := 400
    navigationDelayMs := 800
    navigationJitterMs := 500 }

/-- A concrete job environment with no sitemap, a crawl discovering two
outbound links, and every probe answering 404. -/
def envC2 : JobEnv :=
  { parse := fun _ => some { protocol := "https:", host := "e.com", rest := "/", hash := "" }
    sitemapPages := []
    pageData := fun _ =>
      { title := "t"
        links := ["https://x.com/", "https://y.com/"]
        pagesCrawledUrls := ["https://e.com/"] }
    fetch :=
      { head := fun _ => Except.ok 404
        get := fun _ => Except.ok 200 } }

/-- The completed-job result produced by `processJob` in `envC2`. -/
def resultC2 : JobResult :=
  (processJob envC2 "https://e.com/" optsEx "j").getD
    { title := "", discoveryMethod := DiscoveryMethod.scrape, pagesCrawled := 0,
      pagesCrawledUrls := [], linksChecked := 0, alive := 0, dead := 0,
      errors := 0, links := [] }

/-- A concrete job environment whose sitemap discovery yields one URL. -/
def envC3 : JobEnv :=
  { parse := fun _ => some { protocol := "https:", host := "e.com", rest := "/", hash := "" }
    sitemapPages := ["https://e.com/a"]
    pageData := fun _ => { title := "t", links := [], pagesCrawledUrls := [] }
    fetch :=
      { head := fun _ => Except.ok 200
        get := fun _ => Except.ok 200 } }

/-- The completed-job result produced by `processJob` in `envC3`. -/
def resultC3 : JobResult :=
  (processJob envC3 "https://e.com/" optsEx "j").getD
    { title := "", discoveryMethod := DiscoveryMethod.scrape, pagesCrawled := 0,
      pagesCrawledUrls := [], linksChecked := 0, alive := 0, dead := 0,
      errors := 0, links := [] }

/-- A concrete URL parser covering the inputs of the crawl-selection
evaluation (spec §8 scenario E). -/
def parseEx : String → Option URLm := fun s =>
  if s = "https://example.com/" then
    some { protocol := "https:", host := "example.com", rest := "/", hash := "" }
  else if s = "https://example.com/#a" then
    some { protocol := "https:", host := "example.com", rest := "/", hash := "#a" }
  else if s = "https://example.com/posts#one" then
    some { protocol := "https:", host := "example.com", rest := "/posts", hash := "#one" }
  else if s = "https://example.com/posts#two" then
    some { protocol := "https:", host := "example.com", rest := "/posts", hash := "#two" }
  else if s = "https://example.com/posts" then
    some { protocol := "https:", host := "example.com", rest := "/posts", hash := "" }
  else none

/-- Scenario E's candidate list: a fragment variant of the root and three
fragment variants of the same internal page. -/
def candsEx : List String :=
  ["https://example.com/#a", "https://example.com/posts#one",
   "https://example.com/posts#two", "https://example.com/posts"]

/-- A concrete sitemap-index document with two child sitemaps. -/
def idxXml : String :=
  "<sitemapindex><sitemap><loc>https://example.com/a.xml</loc></sitemap><sitemap> <loc>https://example.com/b.xml</loc></sitemap></sitemapindex>"

/-- Helper fact: `classify` never yields `error`: errors only come from caught exceptions. -/
theorem classify_ne_error (s : Nat) : classify s ≠ LinkStatus.error := by
  unfold classify
  split_ifs <;> simp

/-- C1: for every HTTP status code `c`, `isAlive` accepts `c` exactly when
`200 ≤ c < 400` or `c = 401` or `c = 403`, and the classification step maps
every other code (including codes below 200) to `dead`. -/
theorem c1_isAlive_classification : ∀ c : Nat,
    (isAlive c = true ↔ ((200 ≤ c ∧ c < 400) ∨ c = 401 ∨ c = 403))
    ∧ classify c =
        (if (200 ≤ c ∧ c < 400) ∨ c = 401 ∨ c = 403 then LinkStatus.alive
         else LinkStatus.dead) := by
  intro c
  have h : isAlive c = true ↔ ((200 ≤ c ∧ c < 400) ∨ c = 401 ∨ c = 403) := by
    unfold isAlive
    split_ifs with h1 h2 <;> simp_all
  refine ⟨h, ?_⟩
  unfold classify
  by_cases hc : (200 ≤ c ∧ c < 400) ∨ c = 401 ∨ c = 403
  · rw [if_pos (h.mpr hc), if_pos hc]
  · have hfalse : isAlive c = false := by
      cases hia : isAlive c
      · rfl
      · exact absurd (h.mp hia) hc
    rw [if_neg hc, hfalse]
    simp

/-- C4: `checkLink` classifies the HEAD status directly whenever it is not
405 (and the result then does not depend on the GET probe at all); exactly on
HEAD status 405 it retries once with GET and classifies the GET status; a
HEAD 404 yields a dead result with status code 404. -/
theorem c4_checkLink_head_then_get : ∀ (env : FetchEnv) (url : String),
    (∀ s, env.head url = Except.ok s → s ≠ 405 →
      checkLink env url
          = { url := url, status := classify s, statusCode := some s, error := none }
        ∧ ∀ g, checkLink { head := env.head, get := g } url = checkLink env url)
    ∧ (∀ s2, env.head url = Except.ok 405 → env.get url = Except.ok s2 →
        checkLink env url
          = { url := url, status := classify s2, statusCode := some s2, error := none })
    ∧ (env.head url = Except.ok 404 →
        checkLink env url
          = { url := url, status := LinkStatus.dead, statusCode := some 404, error := none }) := by
  intro env url
  refine ⟨?_, ?_, ?_⟩
  · intro s h hs
    constructor
    · simp [checkLink, h, hs]
    · intro g
      simp [checkLink, h, hs]
  · intro s2 h hg
    simp [checkLink, h, hg]
  · intro h
    have h404 : (404 : Nat) ≠ 405 := by omega
    have hd : classify 404 = LinkStatus.dead := by decide
    simp [checkLink, h, h404, hd]

/-- C5: every exception thrown while probing (on the HEAD, or on the GET
retry after a 405) is caught into a `status: "error"` result with no status
code and the exception text in `error`; conversely an alive/dead result
always carries a status code and no error text.  `checkLink` is a total
function, so no exception ever propagates to the caller. -/
theorem c5_checkLink_error_capture : ∀ (env : FetchEnv) (url : String),
    (∀ e, env.head url = Except.error e →
      checkLink env url
        = { url := url, status := LinkStatus.error, statusCode := none, error := some e })
    ∧ (∀ e, env.head url = Except.ok 405 → env.get url = Except.error e →
      checkLink env url
        = { url := url, status := LinkStatus.error, statusCode := none, error := some e })
    ∧ ((checkLink env url).status ≠ LinkStatus.error →
        (checkLink env url).statusCode.isSome = true ∧ (checkLink env url).error = none)
    ∧ ((checkLink env url).status = LinkStatus.error →
        (checkLink env url).statusCode = none ∧ (checkLink env url).error.isSome = true) := by
  intro env url
  refine ⟨?_, ?_, ?_, ?_⟩
  · intro e h
    simp [checkLink, h]
  · intro e h hg
    simp [checkLink, h, hg]
  · intro hst
    rcases hh : env.head url with e | s
    · exact absurd (by simp [checkLink, hh]) hst
    · by_cases h5 : s = 405
      · subst h5
        rcases hg : env.get url with e | s2
        · exact absurd (by simp [checkLink, hh, hg]) hst
        · constructor
          · simp [checkLink, hh, hg]
          · simp [checkLink, hh, hg]
      · constructor
        · simp [checkLink, hh, h5]
        · simp [checkLink, hh, h5]
  · intro hst
    rcases hh : env.head url with e | s
    · constructor
      · simp [checkLink, hh]
      · simp [checkLink, hh]
    · by_cases h5 : s = 405
      · subst h5
        rcases hg : env.get url with e | s2
        · constructor
          · simp [checkLink, hh, hg]
          · simp [checkLink, hh, hg]
        · have hcl : (checkLink env url).status = classify s2 := by
            simp [checkLink, hh, hg]
          rw [hcl] at hst
          exact absurd hst (classify_ne_error s2)
      · have hcl : (checkLink env url).status = classify s := by
          simp [checkLink, hh, h5]
        rw [hcl] at hst
        exact absurd hst (classify_ne_error s)

/-- The URL recorded in a `checkLink` result is the probed URL. -/
theorem checkLink_url (env : FetchEnv) (u : String) : (checkLink env u).url = u := by
  unfold checkLink
  cases hh : env.head u with
  | error e => rfl
  | ok s =>
    by_cases h5 : s = 405
    · subst h5
      cases hg : env.get u with
      | error e => simp [hg]
      | ok s2 => simp [hg]
    · simp [h5]

/-- The batch loop equals a plain map once the fuel covers the list: every
iteration consumes at least one link because the batch size is ≥ 1. -/
theorem checkLinksFuel_eq (env : FetchEnv) (conc : Nat) (hc : 1 ≤ conc) :
    ∀ (fuel : Nat) (ls : List String), ls.length ≤ fuel →
      checkLinksFuel env conc fuel ls = ls.map (checkLink env) := by
  intro fuel
  induction fuel with
  | zero =>
    intro ls h
    have : ls = [] := List.eq_nil_of_length_eq_zero (Nat.le_zero.mp h)
    subst this
    rfl
  | succ n ih =>
    intro ls h
    match ls with
    | [] => rfl
    | u :: rest =>
      have hlen : ((u :: rest).drop conc).length ≤ n := by
        simp only [List.length_drop, List.length_cons]
        simp only [List.length_cons] at h
        omega
      calc checkLinksFuel env conc (n + 1) (u :: rest)
          = ((u :: rest).take conc).map (checkLink env) ++
              checkLinksFuel env conc n ((u :: rest).drop conc) := rfl
        _ = ((u :: rest).take conc).map (checkLink env) ++
              ((u :: rest).drop conc).map (checkLink env) := by rw [ih _ hlen]
        _ = (u :: rest).map (checkLink env) := by
              rw [← List.map_append, List.take_append_drop]

/-- C10: `checkLinks` returns exactly one `LinkResult` per input URL, in
input order — it equals mapping `checkLink` over the inputs, the projected
URL list is the input list, and lengths agree. -/
theorem c10_checkLinks_one_result_per_url :
    ∀ (env : FetchEnv) (links : List String) (jobId : String) (options : ROptions),
      checkLinks env links jobId options = links.map (checkLink env)
      ∧ (checkLinks env links jobId options).map (fun r => r.url) = links
      ∧ (checkLinks env links jobId options).length = links.length := by
  intro env links jobId options
  have h1 : checkLinks env links jobId options = links.map (checkLink env) :=
    checkLinksFuel_eq env _ (le_max_left 1 _) links.length links (le_refl _)
  refine ⟨h1, ?_, ?_⟩
  · rw [h1, List.map_map]
    have : ∀ l : List String, l.map ((fun r => r.url) ∘ checkLink env) = l := by
      intro l
      induction l with
      | nil => rfl
      | cons x xs ih => simp [Function.comp, checkLink_url, ih]
    exact this links
  · rw [h1, List.length_map]

/-- Every `LinkResult` has exactly one of the three statuses, so the three
status filters partition any result list. -/
theorem status_filter_sum (l : List LinkResult) :
    (l.filter (fun r => r.status == LinkStatus.alive)).length
      + (l.filter (fun r => r.status == LinkStatus.dead)).length
      + (l.filter (fun r => r.status == LinkStatus.error)).length
      = l.length := by
  induction l with
  | nil => rfl
  | cons r rest ih =>
    cases h : r.status <;> simp [List.filter_cons, h] <;> omega

/-- C2: every `JobResult` built by `processJob` for a completed job satisfies
`alive + dead + errors = linksChecked = links.length`. -/
theorem c2_result_tally_invariant (env : JobEnv) (url : String)
    (options : ROptions) (jobId : String) (r : JobResult)
    (h : processJob env url options jobId = some r) :
    r.alive + r.dead + r.errors = r.linksChecked
      ∧ r.linksChecked = r.links.length := by
  unfold processJob at h
  cases hp : env.parse url with
  | none =>
    rw [hp] at h
    exact absurd h (by simp)
  | some rootU =>
    rw [hp] at h
    rw [Option.some.injEq] at h
    rw [← h]
    unfold mkJobResult
    exact ⟨status_filter_sum _, rfl⟩

/-- C2 witness: a concrete completed job satisfies the tally invariant. -/
theorem c2_witness :
    resultC2.alive + resultC2.dead + resultC2.errors = resultC2.linksChecked
      ∧ resultC2.linksChecked = resultC2.links.length :=
  c2_result_tally_invariant envC2 "https://e.com/" optsEx "j" resultC2 rfl

/-- C3: the discovery method of a completed job is `sitemap` exactly when
`discoverFromSitemap` returned at least one URL (`scrape` when it returned
none); the crawler's seed pages are `none` in the scrape case and the
same-origin sitemap URLs capped at `maxInternalPages` in the sitemap case;
and `processJob` invokes the crawler (`env.pageData`) with precisely the seed
pages chosen by the discovery branch. -/
theorem c3_discovery_method_selection : ∀ (env : JobEnv) (url : String)
    (options : ROptions) (jobId : String),
    (∀ r, processJob env url options jobId = some r →
      r.discoveryMethod =
        (if env.sitemapPages.isEmpty then DiscoveryMethod.scrape
         else DiscoveryMethod.sitemap))
    ∧ (∀ (baseUrl : String) (maxP : Nat),
        jobDiscovery env baseUrl maxP =
          (if env.sitemapPages.isEmpty then (DiscoveryMethod.scrape, none)
           else (DiscoveryMethod.sitemap,
             some ((env.sitemapPages.filter
               (fun u => sameOrigin env.parse baseUrl u)).take maxP))))
    ∧ (∀ root, env.parse url = some root →
        processJob env url options jobId =
          some (mkJobResult env.fetch options jobId
            (jobDiscovery env root.origin options.maxInternalPages).1
            (env.pageData
              (jobDiscovery env root.origin options.maxInternalPages).2))) := by
  intro env url options jobId
  have hd : ∀ (baseUrl : String) (maxP : Nat),
      jobDiscovery env baseUrl maxP =
        (if env.sitemapPages.isEmpty then (DiscoveryMethod.scrape, none)
         else (DiscoveryMethod.sitemap,
           some ((env.sitemapPages.filter
             (fun u => sameOrigin env.parse baseUrl u)).take maxP))) := by
    intro baseUrl maxP
    unfold jobDiscovery
    cases hs : env.sitemapPages with
    | nil => simp
    | cons a l => simp
  refine ⟨?_, hd, ?_⟩
  · intro r h
    unfold processJob at h
    cases hp : env.parse url with
    | none =>
      rw [hp] at h
      exact absurd h (by simp)
    | some rootU =>
      rw [hp] at h
      rw [Option.some.injEq] at h
      rw [← h]
      rw [hd rootU.origin options.maxInternalPages]
      cases hs : env.sitemapPages with
      | nil => simp [mkJobResult]
      | cons a l => simp [mkJobResult]
  · intro root hroot
    unfold processJob
    rw [hroot]

/-- C3 witness: with a non-empty sitemap discovery the completed job's
discovery method is `sitemap`. -/
theorem c3_witness : resultC3.discoveryMethod = DiscoveryMethod.sitemap :=
  ((c3_discovery_method_selection envC3 "https://e.com/" optsEx "j").1
    resultC3 rfl).trans rfl

/-- C4 witness: a HEAD answering 404 (with a GET that would answer 200) is
classified dead with status code 404, without consulting GET. -/
theorem c4_witness :
    checkLink { head := fun _ => Except.ok 404, get := fun _ => Except.ok 200 }
        "https://x.com/"
      = { url := "https://x.com/", status := LinkStatus.dead,
          statusCode := some 404, error := none } :=
  (c4_checkLink_head_then_get
    { head := fun _ => Except.ok 404, get := fun _ => Except.ok 200 }
    "https://x.com/").2.2 rfl

/-- C5 witness: a thrown HEAD exception is captured as an error result with
the exception text and no status code. -/
theorem c5_witness :
    checkLink { head := fun _ => Except.error "TypeError: fetch failed",
                get := fun _ => Except.ok 200 } "https://x.com/"
      = { url := "https://x.com/", status := LinkStatus.error,
          statusCode := none, error := some "TypeError: fetch failed" } :=
  (c5_checkLink_error_capture
    { head := fun _ => Except.error "TypeError: fetch failed",
      get := fun _ => Except.ok 200 }
    "https://x.com/").1 "TypeError: fetch failed" rfl

/-- C7: whenever the sitemap-index scan finds at least one `<sitemap><loc>`
entry, `extractSitemapUrlsFromXml` returns exactly those entries (trimmed) as
`childSitemaps` with empty `urls`; whenever it finds none, the document is
treated as a urlset — empty `childSitemaps` and exactly the `<url><loc>`
entries (trimmed) as `urls`, even when there are zero of them. -/
theorem c7_extract_sitemap_xml : ∀ xml : String,
    (scanEntries sitemapTag xml.data ≠ [] →
      extractSitemapUrlsFromXml xml
        = { childSitemaps := (scanEntries sitemapTag xml.data).map jsTrim,
            urls := [] })
    ∧ (scanEntries sitemapTag xml.data = [] →
      extractSitemapUrlsFromXml xml
        = { childSitemaps := [],
            urls := (scanEntries urlTag xml.data).map jsTrim }) := by
  intro xml
  constructor
  · intro h
    have hpos : 0 < ((scanEntries sitemapTag xml.data).map jsTrim).length := by
      simp only [List.length_map]
      exact List.length_pos.mpr h
    simp only [extractSitemapUrlsFromXml]
    rw [if_pos hpos]
  · intro h
    simp only [extractSitemapUrlsFromXml, h]
    simp

/-- C7 witness: a concrete sitemap-index document with two children yields
exactly those children and no urls. -/
theorem c7_witness :
    extractSitemapUrlsFromXml idxXml
      = { childSitemaps := ["https://example.com/a.xml", "https://example.com/b.xml"],
          urls := [] } :=
  ((c7_extract_sitemap_xml idxXml).1 (by decide)).trans (by decide)

/-- C9: recursive sitemap-index resolution has no depth or cycle guard.  In
the fetch environment where `selfLoopUrl` serves a sitemap index listing
itself, no finite recursion-depth budget completes the resolution: the
recursion is unbounded and `parseSitemap` would not terminate. -/
theorem c9_parse_sitemap_unbounded : ∀ fuel : Nat,
    parseSitemapFuel selfFetch fuel selfLoopUrl = none := by
  intro fuel
  induction fuel with
  | zero =>
    unfold parseSitemapFuel
    rfl
  | succ f ih =>
    unfold parseSitemapFuel
    have hf : selfFetch selfLoopUrl = some selfLoopXml := rfl
    rw [hf]
    have hx : extractSitemapUrlsFromXml selfLoopXml
        = { childSitemaps := [selfLoopUrl], urls := [] } := by decide
    simp only [hx]
    simp only [List.length_cons, List.length_nil, Nat.zero_add, gt_iff_lt,
      Nat.zero_lt_one, if_true]
    unfold parseChildren
    rw [ih]

/-- C8 counterexample: object spread copies a property explicitly set to
`undefined`, so `normalizeOptions({maxInternalPages: undefined})` leaves
`maxInternalPages` undefined instead of applying the default — the output is
not fully defined. -/
theorem c8_counterexample :
    (normalizeOptions (some { maxInternalPages := JSField.undef })).maxInternalPages
        = none
      ∧ ¬ allDefined (normalizeOptions (some { maxInternalPages := JSField.undef })) := by
  constructor
  · rfl
  · decide

/-- A property that is absent or set to a proper value normalizes to a
defined value when the default is defined. -/
theorem spreadField_isSome {α : Type} (d : α) (f : JSField α)
    (h : f ≠ JSField.undef) : (spreadField (some d) f).isSome = true := by
  cases f with
  | absent => rfl
  | undef => exact absurd rfl h
  | val a => rfl

/-- C8 (amended): for every partial options object none of whose fields is
explicitly `undefined` — in particular for an absent or empty object — every
field of `normalizeOptions`'s output is present and defined.  (A field
explicitly set to `undefined` instead overrides its default and stays
undefined, per the counterexample.) -/
theorem c8_normalize_defined_amended :
    allDefined (normalizeOptions none)
      ∧ ∀ o : PartialJobOptions, noUndef o →
          allDefined (normalizeOptions (some o)) := by
  constructor
  · decide
  · intro o h
    obtain ⟨h1, h2, h3, h4, h5, h6, h7, h8⟩ := h
    exact ⟨spreadField_isSome true _ h1, spreadField_isSome 10 _ h2,
      spreadField_isSome 500 _ h3, spreadField_isSome 3 _ h4,
      spreadField_isSome 600 _ h5, spreadField_isSome 400 _ h6,
      spreadField_isSome 800 _ h7, spreadField_isSome 500 _ h8⟩

/-- C8 witness: the empty partial object normalizes to fully defined
options. -/
theorem c8_witness : allDefined (normalizeOptions (some {})) :=
  c8_normalize_defined_amended.2 {} (by decide)

/-- Members of the deduplicated list come from the input and were not
already seen. -/
theorem mem_dedupFirstAux : ∀ (l seen : List String) (x : String),
    x ∈ dedupFirstAux seen l → x ∈ l ∧ x ∉ seen := by
  intro l
  induction l with
  | nil =>
    intro seen x hx
    simp [dedupFirstAux] at hx
  | cons a as ih =>
    intro seen x hx
    by_cases ha : a ∈ seen
    · rw [dedupFirstAux, if_pos ha] at hx
      obtain ⟨h1, h2⟩ := ih seen x hx
      exact ⟨List.mem_cons_of_mem a h1, h2⟩
    · rw [dedupFirstAux, if_neg ha] at hx
      rcases List.mem_cons.mp hx with he | hmem
      · subst he
        exact ⟨List.mem_cons_self x as, ha⟩
      · obtain ⟨h1, h2⟩ := ih (a :: seen) x hmem
        exact ⟨List.mem_cons_of_mem a h1,
          fun hs => h2 (List.mem_cons_of_mem a hs)⟩

/-- First-occurrence deduplication yields a duplicate-free list. -/
theorem nodup_dedupFirstAux : ∀ (l seen : List String),
    (dedupFirstAux seen l).Nodup := by
  intro l
  induction l with
  | nil =>
    intro seen
    simp [dedupFirstAux]
  | cons a as ih =>
    intro seen
    by_cases ha : a ∈ seen
    · rw [dedupFirstAux, if_pos ha]
      exact ih seen
    · rw [dedupFirstAux, if_neg ha]
      refine List.nodup_cons.mpr ⟨?_, ih (a :: seen)⟩
      intro hmem
      exact (mem_dedupFirstAux as (a :: seen) a hmem).2 (List.mem_cons_self a seen)

/-- Deduplicating a concatenation keeps the first list's deduplication as a
prefix; the appended tail only holds elements of the second list that occur
in neither the first list nor the seen set. -/
theorem dedupFirstAux_append : ∀ (l1 l2 seen : List String),
    ∃ tail, dedupFirstAux seen (l1 ++ l2) = dedupFirstAux seen l1 ++ tail
      ∧ ∀ x ∈ tail, x ∈ l2 ∧ x ∉ l1 ∧ x ∉ seen := by
  intro l1
  induction l1 with
  | nil =>
    intro l2 seen
    refine ⟨dedupFirstAux seen l2, by simp [dedupFirstAux], ?_⟩
    intro x hx
    obtain ⟨h1, h2⟩ := mem_dedupFirstAux l2 seen x hx
    exact ⟨h1, by simp, h2⟩
  | cons a as ih =>
    intro l2 seen
    by_cases ha : a ∈ seen
    · obtain ⟨tail, heq, hmem⟩ := ih l2 seen
      refine ⟨tail, ?_, ?_⟩
      · rw [List.cons_append, dedupFirstAux, if_pos ha, heq,
          dedupFirstAux, if_pos ha]
      · intro x hx
        obtain ⟨h2, h1, hs⟩ := hmem x hx
        refine ⟨h2, ?_, hs⟩
        intro hx1
        rcases List.mem_cons.mp hx1 with he | hmem1
        · exact hs (he ▸ ha)
        · exact h1 hmem1
    · obtain ⟨tail, heq, hmem⟩ := ih l2 (a :: seen)
      refine ⟨tail, ?_, ?_⟩
      · rw [List.cons_append, dedupFirstAux, if_neg ha, heq,
          dedupFirstAux, if_neg ha, List.cons_append]
      · intro x hx
        obtain ⟨h2, h1, hs⟩ := hmem x hx
        have hxa : x ≠ a := fun he => hs (he ▸ List.mem_cons_self a seen)
        refine ⟨h2, ?_, fun hseen => hs (List.mem_cons_of_mem a hseen)⟩
        intro hx1
        rcases List.mem_cons.mp hx1 with he | hmem1
        · exact hxa he
        · exact h1 hmem1

/-- The candidate loop of `selectInternalPagesToCrawl` computes: append to
`selected` the first-occurrence deduplication (relative to `seen`) of the
per-candidate filter results, truncated to the remaining capacity. -/
theorem selectGo_eq (parse : String → Option URLm) (rootHost rootHref : String)
    (maxP : Nat) : ∀ (cs seen selected : List String),
    selectGo parse rootHost rootHref maxP cs seen selected
      = selected ++ (dedupFirstAux seen
          (cs.filterMap (keepCandidate parse rootHost rootHref))).take
            (maxP - selected.length) := by
  intro cs
  induction cs with
  | nil =>
    intro seen selected
    simp [selectGo, dedupFirstAux]
  | cons u rest ih =>
    intro seen selected
    by_cases hfull : maxP ≤ selected.length
    · have hz : maxP - selected.length = 0 := Nat.sub_eq_zero_of_le hfull
      simp [selectGo, hfull, hz]
    · cases hp : parse u with
      | none =>
        have hk : keepCandidate parse rootHost rootHref u = none := by
          simp [keepCandidate, hp]
        simp only [selectGo, if_neg hfull, hp, List.filterMap_cons, hk]
        exact ih seen selected
      | some p =>
        by_cases h1 : p.protocol ≠ "http:" ∧ p.protocol ≠ "https:"
        · have hk : keepCandidate parse rootHost rootHref u = none := by
            simp only [keepCandidate, hp, if_pos h1]
          simp only [selectGo, if_neg hfull, hp, List.filterMap_cons, hk,
            if_pos h1]
          exact ih seen selected
        · by_cases h2 : p.host ≠ rootHost
          · have hk : keepCandidate parse rootHost rootHref u = none := by
              simp only [keepCandidate, hp, if_neg h1, if_pos h2]
            simp only [selectGo, if_neg hfull, hp, List.filterMap_cons, hk,
              if_neg h1, if_pos h2]
            exact ih seen selected
          · by_cases h3 : p.hrefNoHash = rootHref
            · have hk : keepCandidate parse rootHost rootHref u = none := by
                simp only [keepCandidate, hp, if_neg h1, if_neg h2, if_pos h3]
              simp only [selectGo, if_neg hfull, hp, List.filterMap_cons, hk,
                if_neg h1, if_neg h2, if_pos h3]
              exact ih seen selected
            · have hk : keepCandidate parse rootHost rootHref u
                  = some p.hrefNoHash := by
                simp only [keepCandidate, hp, if_neg h1, if_neg h2, if_neg h3]
              by_cases h4 : p.hrefNoHash ∈ seen
              · simp only [selectGo, if_neg hfull, hp, List.filterMap_cons, hk,
                  if_neg h1, if_neg h2, if_neg h3, if_pos h4,
                  dedupFirstAux, if_pos h4]
                exact ih seen selected
              · simp only [selectGo, if_neg hfull, hp, List.filterMap_cons, hk,
                  if_neg h1, if_neg h2, if_neg h3, if_neg h4,
                  dedupFirstAux]
                rw [ih (p.hrefNoHash :: seen) (selected ++ [p.hrefNoHash])]
                obtain ⟨k, hk2⟩ : ∃ k, maxP - selected.length = k + 1 :=
                  ⟨maxP - selected.length - 1, by omega⟩
                have hlen : (selected ++ [p.hrefNoHash]).length
                    = selected.length + 1 := by simp
                have hk3 : maxP - (selected ++ [p.hrefNoHash]).length = k := by
                  rw [hlen]; omega
                rw [hk2, hk3, List.take_succ_cons, List.append_assoc,
                  List.singleton_append]

/-- Inversion of the per-candidate filter: a kept candidate parses to an
http(s) URL on the root's host whose fragment-stripped href is the result and
differs from the root's. -/
theorem keepCandidate_some (parse : String → Option URLm)
    (rootHost rootHref u s : String)
    (h : keepCandidate parse rootHost rootHref u = some s) :
    ∃ p, parse u = some p
      ∧ (p.protocol = "http:" ∨ p.protocol = "https:")
      ∧ p.host = rootHost ∧ s = p.hrefNoHash ∧ s ≠ rootHref := by
  unfold keepCandidate at h
  cases hp : parse u with
  | none =>
    rw [hp] at h
    cases h
  | some p =>
    rw [hp] at h
    simp only [] at h
    split_ifs at h with h1 h2 h3
    rw [Option.some.injEq] at h
    refine ⟨p, rfl, ?_, not_not.mp h2, h.symm, ?_⟩
    · rcases not_and_or.mp h1 with hh | hh
      · exact Or.inl (not_not.mp hh)
      · exact Or.inr (not_not.mp hh)
    · exact fun he => h3 (h.trans he)

/-- C6: with a parsable root, `selectInternalPagesToCrawl` returns exactly
the first-occurrence deduplication of the filtered candidates truncated to
`maxInternalPages` (first-seen order); hence the result has at most
`maxInternalPages` entries, no duplicates (fragment-only variants collapse),
and every entry stems from an http(s) candidate on the root's host that is
not the root itself.  In the crawler, the candidate set inserts the root
page's internal links before the externally supplied seed pages: its
iteration order is the deduplicated internal links followed only by seed
pages not among them. -/
theorem c6_select_internal_pages (parse : String → Option URLm)
    (rootUrl : String) (root : URLm) (candidates : List String)
    (maxInternalPages : Nat) (internalLinks extraInternalPages : List String)
    (h : parse rootUrl = some root) :
    selectInternalPagesToCrawl parse rootUrl candidates maxInternalPages
        = some (selectedSpec parse root candidates maxInternalPages)
      ∧ (selectedSpec parse root candidates maxInternalPages).length
          ≤ maxInternalPages
      ∧ (selectedSpec parse root candidates maxInternalPages).Nodup
      ∧ (∀ s ∈ selectedSpec parse root candidates maxInternalPages,
          ∃ c, c ∈ candidates ∧ ∃ p, parse c = some p
            ∧ (p.protocol = "http:" ∨ p.protocol = "https:")
            ∧ p.host = root.host
            ∧ s = p.hrefNoHash
            ∧ s ≠ root.hrefNoHash)
      ∧ (∃ tail, crawlCandidates internalLinks extraInternalPages
            = dedupFirst internalLinks ++ tail
            ∧ ∀ x ∈ tail, x ∈ extraInternalPages ∧ x ∉ internalLinks) := by
  refine ⟨?_, ?_, ?_, ?_, ?_⟩
  · unfold selectInternalPagesToCrawl
    rw [h]
    show some (selectGo parse root.host root.hrefNoHash maxInternalPages
        candidates [] [])
      = some (selectedSpec parse root candidates maxInternalPages)
    rw [selectGo_eq]
    unfold selectedSpec dedupFirst
    simp
  · unfold selectedSpec
    rw [List.length_take]
    exact min_le_left _ _
  · unfold selectedSpec
    exact List.Nodup.sublist (List.take_sublist _ _) (nodup_dedupFirstAux _ _)
  · intro s hs
    unfold selectedSpec at hs
    have hs1 := List.mem_of_mem_take hs
    have hs2 := (mem_dedupFirstAux _ [] s hs1).1
    obtain ⟨c, hc, hkc⟩ := List.mem_filterMap.mp hs2
    obtain ⟨p, hp, hprot, hhost, hse, hsne⟩ :=
      keepCandidate_some parse root.host root.hrefNoHash c s hkc
    exact ⟨c, hc, p, hp, hprot, hhost, hse, hsne⟩
  · unfold crawlCandidates dedupFirst
    obtain ⟨tail, heq, hmem⟩ :=
      dedupFirstAux_append internalLinks extraInternalPages []
    exact ⟨tail, heq, fun x hx => ⟨(hmem x hx).1, (hmem x hx).2.1⟩⟩

/-- C6 witness (spec §8 scenario E): against root `https://example.com/`, a
root fragment variant and three fragment variants of `/posts` select the
single page `https://example.com/posts`. -/
theorem c6_witness :
    selectInternalPagesToCrawl parseEx "https://example.com/" candsEx 10
      = some ["https://example.com/posts"] :=
  ((c6_select_internal_pages parseEx "https://example.com/"
      { protocol := "https:", host := "example.com", rest := "/", hash := "" }
      candsEx 10 [] [] rfl).1).trans (by decide)

end DeadLinks
